import Mathlib

/-!
Shallow embedding of `git2parquet` (src/index.js) and proofs about its
log-parsing / column-assembly pipeline.

JavaScript strings are modelled as Lean `String` (logically a list of
characters).  The JS primitives `String.prototype.split(c)` (single-character
separator), `Array.prototype.join(c)` and `String.prototype.trim()` are
embedded as the char-list functions `jsSplit`, `jsJoin` and `jsTrim` below.
External effects (the `git` subprocess invocations, `new Date`, `path.resolve`
and the parquet writer) are modelled as an explicit environment record
`GitEnv` that is threaded through the pipeline.
-/

/-- Split a character list at every occurrence of `sep`.  This is the semantics
of JavaScript `s.split(sep)` for a one-character separator: the result is
always non-empty, and separators at the ends produce empty fields. -/
def splitOnChar (sep : Char) : List Char → List (List Char)
  | [] => [[]]
  | c :: cs =>
    match splitOnChar sep cs with
    | [] => [[]]
    | p :: ps => if c = sep then [] :: p :: ps else (c :: p) :: ps

/-- Join a list of character lists with `sep` between consecutive elements:
the semantics of JavaScript `parts.join(sep)`. -/
def joinWith (sep : Char) : List (List Char) → List Char
  | [] => []
  | [p] => p
  | p :: q :: ps => p ++ sep :: joinWith sep (q :: ps)

/-- Embedding of JS `s.split(sep)` on Lean strings. -/
def jsSplit (sep : Char) (s : String) : List String :=
  (splitOnChar sep s.data).map String.mk

/-- Embedding of JS `parts.join(sep)` on Lean strings. -/
def jsJoin (sep : Char) (parts : List String) : String :=
  String.mk (joinWith sep (parts.map String.data))

/-- Embedding of JS `s.trim()`: drop leading and trailing whitespace.  (JS
trims the Unicode whitespace class; the claims only exercise ASCII
whitespace, for which `Char.isWhitespace` agrees.) -/
def jsTrim (s : String) : String :=
  String.mk (((s.data.dropWhile Char.isWhitespace).reverse.dropWhile Char.isWhitespace).reverse)

/-- JavaScript runtime values, as far as option validation observes them
(truthiness, `typeof`, and nullishness). -/
inductive JsValue where
  | vstr (s : String)
  | vnum (n : Int)
  | vbool (b : Bool)
  | vnull
  | vundef
  deriving Repr, DecidableEq

/-- JS truthiness: `""`, `0`, `false`, `null` and `undefined` are falsy. -/
def JsValue.truthy : JsValue → Bool
  | .vstr s => s ≠ ""
  | .vnum n => n ≠ 0
  | .vbool b => b
  | .vnull => false
  | .vundef => false

/-- JS `typeof v === 'string'`. -/
def JsValue.isString : JsValue → Bool
  | .vstr _ => true
  | _ => false

/-- JS nullishness: `null` or `undefined` (the left operand cases of `??`). -/
def JsValue.nullish : JsValue → Bool
  | .vnull => true
  | .vundef => true
  | _ => false

/-- JS `v ?? d` for a string default `d`: substitute only for `null` /
`undefined`. -/
def JsValue.coalesce (v : JsValue) (d : String) : JsValue :=
  if v.nullish then .vstr d else v

/-- Error taxonomy of the export (spec section 7); each constructor is raised
by exactly one `throw new Error(...)` site of src/index.js. -/
inductive ExportError where
  | invalidOptions (msg : String)
  | notARepository
  | logReadFailure (msg : String)
  | malformedLogLine (line : String)
  | emptyRepository
  | writeFailure (msg : String)
  | typeError (msg : String)
  deriving Repr, DecidableEq

/-- One commit record, as produced by `readGitLogWithDiffs` (src/index.js
line 59). -/
structure CommitRecord where
  hash : String
  authorName : String
  authorEmail : String
  date : String
  subject : String
  diff : String
  deriving Repr, DecidableEq

/-- The effectful environment of one export run: outcomes of the external
`git` subprocess invocations, the JS `Date` parser, the working directory and
the parquet writer outcome.  `Except.error` models a throwing `execSync`. -/
structure GitEnv where
  /-- Working directory, used by Node `path.resolve`. -/
  cwd : String
  /-- Outcome of `git rev-parse --git-dir` (src/index.js line 16). -/
  revParse : Except String Unit
  /-- Outcome of `git log --pretty=format:... --date=iso-strict`
  (src/index.js lines 26-29); `ok` carries the raw stdout. -/
  gitLog : Except String String
  /-- Outcome of `git show --patch --unified=0 --no-color --pretty=format: h`
  for each hash `h` (src/index.js lines 50-53). -/
  gitShow : String → Except String String
  /-- JS `new Date(s).getTime()`: `some` milliseconds since epoch, or `none`
  for an Invalid Date (`new Date` never throws on a string argument). -/
  jsDateMs : String → Option Int
  /-- Outcome of `parquetWriteFile` (src/index.js lines 117-120). -/
  writeResult : Except String Unit

/-- Field extraction from one log line (src/index.js lines 39-45): split on
tab, require at least 5 parts, re-join everything from the 5th part on into
the subject. -/
def parseFields (line : String) : Except ExportError (String × String × String × String × String) :=
  match jsSplit '\t' line with
  | hash :: authorName :: authorEmail :: date :: s0 :: rest =>
    .ok (hash, authorName, authorEmail, date, jsJoin '\t' (s0 :: rest))
  | _ => .error (.malformedLogLine line)

/-- Warning message printed when a commit's diff cannot be retrieved
(src/index.js line 55). -/
def diffWarning (hash e : String) : String :=
  "Warning: Could not get diff for commit " ++ hash ++ ": " ++ e

/-- Per-commit diff retrieval (src/index.js lines 47-57): on success the
trimmed patch, on failure an empty diff plus a `console.warn` message. -/
def fetchDiff (env : GitEnv) (hash : String) : String × List String :=
  match env.gitShow hash with
  | .ok d => (jsTrim d, [])
  | .error e => ("", [diffWarning hash e])

/-- Parse one log line into a `CommitRecord` (src/index.js lines 38-60),
also returning the warnings emitted while fetching its diff. -/
def parseLogLine (env : GitEnv) (line : String) : Except ExportError (CommitRecord × List String) :=
  match parseFields line with
  | .error e => .error e
  | .ok (hash, authorName, authorEmail, date, subject) =>
    let fd := fetchDiff env hash
    .ok ({ hash := hash, authorName := authorName, authorEmail := authorEmail,
           date := date, subject := subject, diff := fd.1 }, fd.2)

/-- Exception-propagating map: the semantics of JS `Array.prototype.map`
whose callback may `throw` — the first throw aborts the whole map. -/
def mapExcept (f : α → Except ε β) : List α → Except ε (List β)
  | [] => .ok []
  | a :: as =>
    match f a with
    | .error e => .error e
    | .ok b =>
      match mapExcept f as with
      | .error e => .error e
      | .ok bs => .ok (b :: bs)

/-- Embedding of `readGitLogWithDiffs` (src/index.js lines 13-61): repository
check, log enumeration, then per-line parsing with per-commit diff
retrieval.  Returns the record list together with the warnings emitted. -/
def readGitLogWithDiffs (env : GitEnv) : Except ExportError (List CommitRecord × List String) :=
  match env.revParse with
  | .error _ => .error .notARepository
  | .ok _ =>
    match env.gitLog with
    | .error e => .error (.logReadFailure ("Failed to read git log: " ++ e))
    | .ok raw =>
      if jsTrim raw = "" then
        .ok ([], [])
      else
        match mapExcept (parseLogLine env) (jsSplit '\n' (jsTrim raw)) with
        | .error e => .error e
        | .ok results => .ok (results.map Prod.fst, (results.map Prod.snd).flatten)

/-- Data of one parquet column: string columns hold strings, the timestamp
column holds JS `Date` values (modelled as optional epoch-milliseconds,
`none` being an Invalid Date). -/
inductive ColumnValues where
  | strings (data : List String)
  | timestamps (data : List (Option Int))
  deriving Repr, DecidableEq

/-- Number of rows stored in a column. -/
def ColumnValues.length : ColumnValues → Nat
  | .strings l => l.length
  | .timestamps l => l.length

/-- One named, typed column handed to `hyparquet-writer` (src/index.js
lines 85-92). -/
structure ColumnSource where
  name : String
  data : ColumnValues
  type : String
  deriving Repr, DecidableEq

/-- Embedding of `toColumnData` (src/index.js lines 68-93): transpose the
record list into six parallel column arrays; dates go through `new Date`
(`jsDateMs`) at this stage. -/
def toColumnData (jsDateMs : String → Option Int) (rows : List CommitRecord) : List ColumnSource :=
  [ { name := "hash", data := .strings (rows.map CommitRecord.hash), type := "STRING" },
    { name := "authorName", data := .strings (rows.map CommitRecord.authorName), type := "STRING" },
    { name := "authorEmail", data := .strings (rows.map CommitRecord.authorEmail), type := "STRING" },
    { name := "date", data := .timestamps (rows.map (fun r => jsDateMs r.date)), type := "TIMESTAMP" },
    { name := "subject", data := .strings (rows.map CommitRecord.subject), type := "STRING" },
    { name := "diff", data := .strings (rows.map CommitRecord.diff), type := "STRING" } ]

/-- Options object passed to `execSync`, as far as buffering is concerned.
The source call sites also pass `stdio`, which does not affect buffering. -/
structure ExecOptions where
  encoding : Option String := none
  maxBuffer : Option Nat := none
  deriving Repr, DecidableEq

/-- Node's documented default for `child_process` `maxBuffer`: 1024 * 1024
bytes; a child whose stdout exceeds it is terminated and the call throws. -/
def nodeDefaultMaxBuffer : Nat := 1024 * 1024

/-- Effective stdout ceiling of an `execSync` call: the `maxBuffer` option if
passed, else Node's default. -/
def ExecOptions.effectiveMaxBuffer (o : ExecOptions) : Nat :=
  o.maxBuffer.getD nodeDefaultMaxBuffer

/-- Options passed at the `git log` call site (src/index.js lines 26-29):
`{ encoding: 'utf8', stdio: [...] }` — no `maxBuffer`. -/
def gitLogExecOptions : ExecOptions :=
  { encoding := some "utf8" }

/-- Options passed at the per-commit `git show` call site (src/index.js
lines 50-53): `{ encoding: 'utf8', stdio: [...] }` — no `maxBuffer`. -/
def gitShowExecOptions : ExecOptions :=
  { encoding := some "utf8" }

/-- Default output filename (src/index.js line 7). -/
def defaultFilename : String := "gitlog.parquet"

/-- Node `path.resolve(p)` against working directory `cwd`, for the cases the
claims exercise: the empty path resolves to `cwd` itself, an absolute path to
itself, a relative path is joined onto `cwd`.  (`.`/`..` normalization is not
modelled; no claim involves such paths.) -/
def pathResolve (cwd : String) (p : String) : String :=
  if p = "" then cwd
  else if p.data.head? = some '/' then p
  else cwd ++ "/" ++ p

/-- The options object accepted by `writeGitLogParquet`; `filename` is a raw
JS value (`vundef` when the property is absent). -/
structure Opts where
  filename : JsValue := .vundef
  deriving Repr, DecidableEq

/-- Option validation (src/index.js lines 105-107): reject only a truthy,
non-string `filename`. -/
def validateOpts (o : Opts) : Except ExportError Unit :=
  if o.filename.truthy && !o.filename.isString then
    .error (.invalidOptions "Filename must be a string")
  else
    .ok ()

/-- Output path computation (src/index.js line 114):
`resolve(opts.filename ?? defaultFilename)`.  A falsy non-string that
survives validation reaches `path.resolve`, which throws a `TypeError` on a
non-string argument. -/
def resolveFilename (cwd : String) (v : JsValue) : Except ExportError String :=
  match v.coalesce defaultFilename with
  | .vstr s => .ok (pathResolve cwd s)
  | _ => .error (.typeError "path must be a string")

/-- One invocation of `parquetWriteFile` (src/index.js lines 117-120).  The
writer accepts an optional file-level key/value metadata list; the source
passes an object with only `filename` and `columnData`, i.e. `kvMetadata`
is absent (`none`). -/
structure WriterCall where
  filename : String
  columnData : List ColumnSource
  kvMetadata : Option (List (String × String))
  deriving Repr, DecidableEq

/-- Successful export result (src/index.js line 125). -/
structure ExportResult where
  commitCount : Nat
  filename : String
  deriving Repr, DecidableEq

/-- Full observable outcome of one `writeGitLogParquet` call: the returned
value or error, the parquet-writer invocations performed, and the warnings
printed. -/
structure ExportOutcome where
  result : Except ExportError ExportResult
  writerCalls : List WriterCall
  warnings : List String
  deriving Repr

/-- Embedding of `writeGitLogParquet` (src/index.js lines 100-126): validate
options, read the log, fail on zero commits, resolve the output path,
invoke the writer, return the count and path. -/
def writeGitLogParquet (env : GitEnv) (opts : Opts) : ExportOutcome :=
  match validateOpts opts with
  | .error e => { result := .error e, writerCalls := [], warnings := [] }
  | .ok _ =>
    match readGitLogWithDiffs env with
    | .error e => { result := .error e, writerCalls := [], warnings := [] }
    | .ok (rows, warns) =>
      if rows.length = 0 then
        { result := .error .emptyRepository, writerCalls := [], warnings := warns }
      else
        match resolveFilename env.cwd opts.filename with
        | .error e => { result := .error e, writerCalls := [], warnings := warns }
        | .ok filename =>
          let call : WriterCall :=
            { filename := filename, columnData := toColumnData env.jsDateMs rows,
              kvMetadata := none }
          match env.writeResult with
          | .ok _ =>
            { result := .ok { commitCount := rows.length, filename := filename },
              writerCalls := [call], warnings := warns }
          | .error e =>
            { result := .error (.writeFailure ("Failed to write parquet file: " ++ e)),
              writerCalls := [call], warnings := warns }

/-- Lift a relation on successes to `Except` results: errors must agree
exactly, successes must be related. -/
def ExceptRel (R : β → γ → Prop) : Except ε β → Except ε γ → Prop
  | .ok b, .ok c => R b c
  | .error e, .error f => e = f
  | .ok _, .error _ => False
  | .error _, .ok _ => False

/-- The non-diff fields of two commit records agree. -/
def SameMeta (r s : CommitRecord) : Prop :=
  r.hash = s.hash ∧ r.authorName = s.authorName ∧ r.authorEmail = s.authorEmail ∧
    r.date = s.date ∧ r.subject = s.subject

/-- Concrete environment: a healthy one-commit repository. -/
def sampleEnv : GitEnv :=
  { cwd := "/repo"
    revParse := .ok ()
    gitLog := .ok "h1\tAlice\talice@x.com\t2024-01-01T00:00:00+00:00\tinit commit\n"
    gitShow := fun _ => .ok "diff --git a b\n"
    jsDateMs := fun s => if s = "2024-01-01T00:00:00+00:00" then some 1704067200000 else none
    writeResult := .ok () }

/-- Concrete environment: one commit whose date string is malformed, so JS
`new Date` yields an Invalid Date. -/
def badDateEnv : GitEnv :=
  { sampleEnv with
    gitLog := .ok "h1\tAlice\talice@x.com\tnot-a-date\tinit commit"
    jsDateMs := fun _ => none }

/-- Concrete environment: the log output contains a line with fewer than 5
tab-separated fields. -/
def badLineEnv : GitEnv :=
  { sampleEnv with gitLog := .ok "h1\tAlice\tonly three fields" }

/-- Concrete environment: the log enumeration succeeds but prints nothing —
a repository with zero commits. -/
def noCommitsEnv : GitEnv :=
  { sampleEnv with gitLog := .ok "  \n " }

/-- Concrete environment: `git rev-parse --git-dir` fails — the working
directory is not inside a repository. -/
def outsideRepoEnv : GitEnv :=
  { sampleEnv with revParse := .error "fatal: not a git repository" }

/-- Concrete environment: the per-commit diff retrieval fails. -/
def failingDiffEnv : GitEnv :=
  { sampleEnv with gitShow := fun _ => .error "boom" }

/-! ### Lemmas about the JS string primitives -/

theorem splitOnChar_ne_nil (sep : Char) (l : List Char) : splitOnChar sep l ≠ [] := by
  cases l with
  | nil => simp [splitOnChar]
  | cons c cs =>
    simp only [splitOnChar]
    cases h : splitOnChar sep cs with
    | nil => simp
    | cons p ps => by_cases hc : c = sep <;> simp [hc]

theorem splitOnChar_cons_sep (sep : Char) (b : List Char) :
    splitOnChar sep (sep :: b) = [] :: splitOnChar sep b := by
  simp only [splitOnChar]
  cases h : splitOnChar sep b with
  | nil => exact absurd h (splitOnChar_ne_nil sep b)
  | cons p ps => simp

theorem splitOnChar_append (sep : Char) (a b : List Char) (ha : sep ∉ a) :
    splitOnChar sep (a ++ sep :: b) = a :: splitOnChar sep b := by
  induction a with
  | nil =>
    simpa using splitOnChar_cons_sep sep b
  | cons c cs ih =>
    have hc : c ≠ sep := fun h => ha (h ▸ List.mem_cons_self c cs)
    have hcs : sep ∉ cs := fun h => ha (List.mem_cons_of_mem c h)
    rw [List.cons_append]
    simp only [splitOnChar]
    rw [ih hcs]
    simp [hc]

theorem joinWith_splitOnChar (sep : Char) (l : List Char) :
    joinWith sep (splitOnChar sep l) = l := by
  induction l with
  | nil => rfl
  | cons c cs ih =>
    simp only [splitOnChar]
    cases h : splitOnChar sep cs with
    | nil => exact absurd h (splitOnChar_ne_nil sep cs)
    | cons p ps =>
      rw [h] at ih
      by_cases hc : c = sep
      · subst hc
        simp only [if_pos rfl, joinWith, List.nil_append]
        rw [ih]
      · simp only [if_neg hc]
        cases ps with
        | nil =>
          simp only [joinWith] at ih ⊢
          rw [ih]
        | cons q qs =>
          simp only [joinWith] at ih ⊢
          rw [List.cons_append, ih]

theorem jsSplit_ne_nil (sep : Char) (s : String) : jsSplit sep s ≠ [] := by
  unfold jsSplit
  intro h
  exact splitOnChar_ne_nil sep s.data (List.map_eq_nil_iff.mp h)

theorem jsSplit_append (sep : Char) (a rest : String) (ha : sep ∉ a.data) :
    jsSplit sep (a ++ String.mk [sep] ++ rest) = a :: jsSplit sep rest := by
  unfold jsSplit
  have hdata : (a ++ String.mk [sep] ++ rest).data = a.data ++ sep :: rest.data := by
    show (a.data ++ [sep]) ++ rest.data = a.data ++ sep :: rest.data
    simp
  rw [hdata, splitOnChar_append sep a.data rest.data ha, List.map_cons]

theorem jsJoin_jsSplit (sep : Char) (s : String) : jsJoin sep (jsSplit sep s) = s := by
  unfold jsJoin jsSplit
  rw [List.map_map]
  have hid : (String.data ∘ String.mk) = (id : List Char → List Char) := rfl
  rw [hid, List.map_id, joinWith_splitOnChar]

/-! ### Lemmas about line parsing -/

theorem list_shape_of_five_le {α : Type} (l : List α) (h : 5 ≤ l.length) :
    ∃ a b c d e rest, l = a :: b :: c :: d :: e :: rest := by
  rcases l with _ | ⟨a, _ | ⟨b, _ | ⟨c, _ | ⟨d, _ | ⟨e, rest⟩⟩⟩⟩⟩
  · simp at h
  · simp at h
  · simp at h
  · simp at h
  · simp at h
  · exact ⟨a, b, c, d, e, rest, rfl⟩

theorem parseFields_short (line : String) (h : (jsSplit '\t' line).length < 5) :
    parseFields line = .error (.malformedLogLine line) := by
  unfold parseFields
  rcases hs : jsSplit '\t' line with _ | ⟨a, _ | ⟨b, _ | ⟨c, _ | ⟨d, _ | ⟨e, rest⟩⟩⟩⟩⟩
  · rfl
  · rfl
  · rfl
  · rfl
  · rfl
  · rw [hs] at h
    simp at h
    omega

theorem parseFields_cons (hash an ae d s0 : String) (rest : List String) (line : String)
    (hs : jsSplit '\t' line = hash :: an :: ae :: d :: s0 :: rest) :
    parseFields line = .ok (hash, an, ae, d, jsJoin '\t' (s0 :: rest)) := by
  unfold parseFields
  rw [hs]

theorem parseFields_of_five_le (line : String) (h : 5 ≤ (jsSplit '\t' line).length) :
    parseFields line =
      .ok ((jsSplit '\t' line).getD 0 "", (jsSplit '\t' line).getD 1 "",
           (jsSplit '\t' line).getD 2 "", (jsSplit '\t' line).getD 3 "",
           jsJoin '\t' ((jsSplit '\t' line).drop 4)) := by
  obtain ⟨a, b, c, d, e, rest, hs⟩ := list_shape_of_five_le (jsSplit '\t' line) h
  rw [parseFields_cons a b c d e rest line hs, hs]
  rfl

theorem parseLogLine_error_elim (env : GitEnv) (line : String) (e : ExportError)
    (h : parseLogLine env line = .error e) : e = .malformedLogLine line := by
  unfold parseLogLine at h
  cases hp : parseFields line with
  | error e' =>
    rw [hp] at h
    cases h
    cases hq : jsSplit '\t' line with
    | nil => exact absurd hq (jsSplit_ne_nil '\t' line)
    | cons a rest =>
      unfold parseFields at hp
      rw [hq] at hp
      rcases rest with _ | ⟨b, _ | ⟨c, _ | ⟨d, _ | ⟨f, r⟩⟩⟩⟩ <;> cases hp <;> rfl
  | ok q =>
    rw [hp] at h
    obtain ⟨q1, q2, q3, q4, q5⟩ := q
    cases h

theorem parseLogLine_ok_intro (env : GitEnv) (line hash an ae d s : String)
    (hp : parseFields line = .ok (hash, an, ae, d, s)) :
    parseLogLine env line =
      .ok ({ hash := hash, authorName := an, authorEmail := ae, date := d,
             subject := s, diff := (fetchDiff env hash).1 }, (fetchDiff env hash).2) := by
  unfold parseLogLine
  rw [hp]

theorem parseLogLine_ok_elim (env : GitEnv) (line : String) (r : CommitRecord) (ws : List String)
    (h : parseLogLine env line = .ok (r, ws)) :
    parseFields line = .ok (r.hash, r.authorName, r.authorEmail, r.date, r.subject) ∧
      r.diff = (fetchDiff env r.hash).1 ∧ ws = (fetchDiff env r.hash).2 := by
  unfold parseLogLine at h
  cases hp : parseFields line with
  | error e => rw [hp] at h; cases h
  | ok q =>
    obtain ⟨q1, q2, q3, q4, q5⟩ := q
    rw [hp] at h
    simp only [Except.ok.injEq, Prod.mk.injEq] at h
    obtain ⟨hr, hw⟩ := h
    subst hr
    subst hw
    exact ⟨rfl, rfl, rfl⟩

/-! ### Lemmas about exception-propagating map -/

theorem mapExcept_nil (f : α → Except ε β) : mapExcept f [] = .ok [] := rfl

theorem mapExcept_ok_length (f : α → Except ε β) (l : List α) (r : List β)
    (h : mapExcept f l = .ok r) : r.length = l.length := by
  induction l generalizing r with
  | nil =>
    cases h
    rfl
  | cons a as ih =>
    unfold mapExcept at h
    cases hf : f a with
    | error e => rw [hf] at h; cases h
    | ok b =>
      rw [hf] at h
      cases hm : mapExcept f as with
      | error e => rw [hm] at h; cases h
      | ok bs =>
        rw [hm] at h
        cases h
        simp [ih bs hm]

theorem mapExcept_ok_get (f : α → Except ε β) (l : List α) (r : List β)
    (h : mapExcept f l = .ok r) (i : Nat) (hi : i < l.length) (hi' : i < r.length) :
    f (l.get ⟨i, hi⟩) = .ok (r.get ⟨i, hi'⟩) := by
  induction l generalizing r i with
  | nil => simp at hi
  | cons a as ih =>
    unfold mapExcept at h
    cases hf : f a with
    | error e => rw [hf] at h; cases h
    | ok b =>
      rw [hf] at h
      cases hm : mapExcept f as with
      | error e => rw [hm] at h; cases h
      | ok bs =>
        rw [hm] at h
        cases h
        cases i with
        | zero => simpa using hf
        | succ j =>
          have hj : j < as.length := by simpa using hi
          have hj' : j < bs.length := by simpa using hi'
          simpa using ih bs hm j hj hj'

theorem mapExcept_rel (R : β → γ → Prop) (f : α → Except ε β) (g : α → Except ε γ)
    (l : List α) (h : ∀ a ∈ l, ExceptRel R (f a) (g a)) :
    ExceptRel (List.Forall₂ R) (mapExcept f l) (mapExcept g l) := by
  induction l with
  | nil =>
    show List.Forall₂ R [] []
    exact List.Forall₂.nil
  | cons a as ih =>
    have ha := h a (List.mem_cons_self a as)
    have has := ih (fun x hx => h x (List.mem_cons_of_mem a hx))
    unfold mapExcept
    cases hf : f a with
    | error e =>
      cases hg : g a with
      | error e' =>
        rw [hf, hg] at ha
        have he : e = e' := ha
        subst he
        rfl
      | ok c =>
        rw [hf, hg] at ha
        exact absurd ha not_false
    | ok b =>
      cases hg : g a with
      | error e' =>
        rw [hf, hg] at ha
        exact absurd ha not_false
      | ok c =>
        rw [hf, hg] at ha
        cases hmf : mapExcept f as with
        | error e =>
          cases hmg : mapExcept g as with
          | error e' =>
            rw [hmf, hmg] at has
            have he : e = e' := has
            subst he
            rfl
          | ok cs =>
            rw [hmf, hmg] at has
            exact absurd has not_false
        | ok bs =>
          cases hmg : mapExcept g as with
          | error e' =>
            rw [hmf, hmg] at has
            exact absurd has not_false
          | ok cs =>
            rw [hmf, hmg] at has
            exact List.Forall₂.cons ha has

theorem mapExcept_parse_error (env : GitEnv) (lines : List String)
    (h : ∃ line ∈ lines, (jsSplit '\t' line).length < 5) :
    ∃ l ∈ lines, (jsSplit '\t' l).length < 5 ∧
      mapExcept (parseLogLine env) lines = .error (.malformedLogLine l) := by
  induction lines with
  | nil =>
    rcases h with ⟨l, hl, _⟩
    cases hl
  | cons a as ih =>
    by_cases ha : (jsSplit '\t' a).length < 5
    · refine ⟨a, List.mem_cons_self a as, ha, ?_⟩
      have hpe : parseLogLine env a = .error (.malformedLogLine a) := by
        unfold parseLogLine
        rw [parseFields_short a ha]
      unfold mapExcept
      rw [hpe]
    · rcases h with ⟨l, hl, hshort⟩
      rcases List.mem_cons.mp hl with rfl | hmem
      · exact absurd hshort ha
      · rcases ih ⟨l, hmem, hshort⟩ with ⟨l', hl', hshort', herr⟩
        refine ⟨l', List.mem_cons_of_mem a hl', hshort', ?_⟩
        have hlong : 5 ≤ (jsSplit '\t' a).length := not_lt.mp ha
        obtain ⟨p1, p2, p3, p4, p5, rest, hs⟩ :=
          list_shape_of_five_le (jsSplit '\t' a) hlong
        have hpa := parseFields_cons p1 p2 p3 p4 p5 rest a hs
        have hok := parseLogLine_ok_intro env a p1 p2 p3 p4 (jsJoin '\t' (p5 :: rest)) hpa
        unfold mapExcept
        rw [hok, herr]

/-! ### Inversion lemmas for the pipeline -/

theorem readGit_ok_elim (env : GitEnv) (rows : List CommitRecord) (warns : List String)
    (h : readGitLogWithDiffs env = .ok (rows, warns)) :
    env.revParse = .ok () ∧
    ∃ raw, env.gitLog = .ok raw ∧
      ((jsTrim raw = "" ∧ rows = [] ∧ warns = []) ∨
       (jsTrim raw ≠ "" ∧ ∃ results,
          mapExcept (parseLogLine env) (jsSplit '\n' (jsTrim raw)) = .ok results ∧
          rows = results.map Prod.fst ∧ warns = (results.map Prod.snd).flatten)) := by
  unfold readGitLogWithDiffs at h
  cases hrev : env.revParse with
  | error e => simp only [hrev] at h; cases h
  | ok u =>
    cases u
    simp only [hrev] at h
    refine ⟨rfl, ?_⟩
    cases hlog : env.gitLog with
    | error e => simp only [hlog] at h; cases h
    | ok raw =>
      simp only [hlog] at h
      refine ⟨raw, rfl, ?_⟩
      by_cases hempty : jsTrim raw = ""
      · simp only [if_pos hempty, Except.ok.injEq, Prod.mk.injEq] at h
        exact Or.inl ⟨hempty, h.1.symm, h.2.symm⟩
      · simp only [if_neg hempty] at h
        cases hm : mapExcept (parseLogLine env) (jsSplit '\n' (jsTrim raw)) with
        | error e => simp only [hm] at h; cases h
        | ok results =>
          simp only [hm, Except.ok.injEq, Prod.mk.injEq] at h
          exact Or.inr ⟨hempty, results, rfl, h.1.symm, h.2.symm⟩

theorem export_ok_elim (env : GitEnv) (opts : Opts) (res : ExportResult)
    (h : (writeGitLogParquet env opts).result = .ok res) :
    validateOpts opts = .ok () ∧
    ∃ rows warns filename,
      readGitLogWithDiffs env = .ok (rows, warns) ∧
      rows.length ≠ 0 ∧
      resolveFilename env.cwd opts.filename = .ok filename ∧
      env.writeResult = .ok () ∧
      res = { commitCount := rows.length, filename := filename } ∧
      writeGitLogParquet env opts =
        { result := .ok res,
          writerCalls :=
            [{ filename := filename, columnData := toColumnData env.jsDateMs rows,
               kvMetadata := none }],
          warnings := warns } := by
  cases hv : validateOpts opts with
  | error e =>
    simp only [writeGitLogParquet, hv] at h
    cases h
  | ok u =>
    cases u
    refine ⟨rfl, ?_⟩
    cases hread : readGitLogWithDiffs env with
    | error e =>
      simp only [writeGitLogParquet, hv, hread] at h
      cases h
    | ok rw0 =>
      obtain ⟨rows, warns⟩ := rw0
      by_cases hlen : rows.length = 0
      · simp only [writeGitLogParquet, hv, hread, if_pos hlen] at h
        cases h
      · cases hres : resolveFilename env.cwd opts.filename with
        | error e =>
          simp only [writeGitLogParquet, hv, hread, if_neg hlen, hres] at h
          cases h
        | ok filename =>
          cases hw : env.writeResult with
          | error e =>
            simp only [writeGitLogParquet, hv, hread, if_neg hlen, hres, hw] at h
            cases h
          | ok u2 =>
            cases u2
            simp only [writeGitLogParquet, hv, hread, if_neg hlen, hres, hw,
              Except.ok.injEq] at h
            refine ⟨rows, warns, filename, rfl, hlen, rfl, rfl, h.symm, ?_⟩
            simp only [writeGitLogParquet, hv, hread, if_neg hlen, hres, hw, h]

/-! ### Environment-independence lemmas -/

theorem readGit_jsDateMs (env : GitEnv) (f : String → Option Int) :
    readGitLogWithDiffs { env with jsDateMs := f } = readGitLogWithDiffs env := rfl

theorem parseLogLine_rel (env₁ env₂ : GitEnv) (line : String) :
    ExceptRel (fun a b : CommitRecord × List String => SameMeta a.1 b.1)
      (parseLogLine env₁ line) (parseLogLine env₂ line) := by
  cases hp : parseFields line with
  | error e =>
    have h1 : parseLogLine env₁ line = .error e := by
      unfold parseLogLine
      rw [hp]
    have h2 : parseLogLine env₂ line = .error e := by
      unfold parseLogLine
      rw [hp]
    rw [h1, h2]
    rfl
  | ok q =>
    obtain ⟨q1, q2, q3, q4, q5⟩ := q
    rw [parseLogLine_ok_intro env₁ line q1 q2 q3 q4 q5 hp,
        parseLogLine_ok_intro env₂ line q1 q2 q3 q4 q5 hp]
    exact ⟨rfl, rfl, rfl, rfl, rfl⟩

theorem forall₂_sameMeta_map (l l' : List (CommitRecord × List String))
    (h : List.Forall₂ (fun a b => SameMeta a.1 b.1) l l') :
    List.Forall₂ SameMeta (l.map Prod.fst) (l'.map Prod.fst) := by
  induction h with
  | nil => exact List.Forall₂.nil
  | cons h₁ h₂ ih => exact List.Forall₂.cons h₁ ih

theorem readGit_rel (env₁ env₂ : GitEnv) (hrev : env₁.revParse = env₂.revParse)
    (hlog : env₁.gitLog = env₂.gitLog) :
    ExceptRel (fun p q : List CommitRecord × List String => List.Forall₂ SameMeta p.1 q.1)
      (readGitLogWithDiffs env₁) (readGitLogWithDiffs env₂) := by
  unfold readGitLogWithDiffs
  cases hrev₂ : env₂.revParse with
  | error e =>
    simp only [hrev.trans hrev₂, hrev₂]
    rfl
  | ok u =>
    cases u
    simp only [hrev.trans hrev₂, hrev₂]
    cases hlog₂ : env₂.gitLog with
    | error e =>
      simp only [hlog.trans hlog₂, hlog₂]
      rfl
    | ok raw =>
      simp only [hlog.trans hlog₂, hlog₂]
      by_cases hempty : jsTrim raw = ""
      · simp only [if_pos hempty]
        exact List.Forall₂.nil
      · simp only [if_neg hempty]
        have hrel := mapExcept_rel (fun a b : CommitRecord × List String => SameMeta a.1 b.1)
          (parseLogLine env₁) (parseLogLine env₂) (jsSplit '\n' (jsTrim raw))
          (fun a _ => parseLogLine_rel env₁ env₂ a)
        cases hm₁ : mapExcept (parseLogLine env₁) (jsSplit '\n' (jsTrim raw)) with
        | error e =>
          cases hm₂ : mapExcept (parseLogLine env₂) (jsSplit '\n' (jsTrim raw)) with
          | error e2 =>
            rw [hm₁, hm₂] at hrel
            have he : e = e2 := hrel
            subst he
            rfl
          | ok results =>
            rw [hm₁, hm₂] at hrel
            exact absurd hrel not_false
        | ok results₁ =>
          cases hm₂ : mapExcept (parseLogLine env₂) (jsSplit '\n' (jsTrim raw)) with
          | error e =>
            rw [hm₁, hm₂] at hrel
            exact absurd hrel not_false
          | ok results₂ =>
            rw [hm₁, hm₂] at hrel
            exact forall₂_sameMeta_map results₁ results₂ hrel

theorem export_result_agnostic (env₁ env₂ : GitEnv) (opts : Opts)
    (hcwd : env₁.cwd = env₂.cwd) (hrev : env₁.revParse = env₂.revParse)
    (hlog : env₁.gitLog = env₂.gitLog) (hw : env₁.writeResult = env₂.writeResult) :
    (writeGitLogParquet env₁ opts).result = (writeGitLogParquet env₂ opts).result := by
  unfold writeGitLogParquet
  cases hv : validateOpts opts with
  | error e => simp only [hv]
  | ok u =>
    cases u
    simp only [hv]
    have hrel := readGit_rel env₁ env₂ hrev hlog
    cases hr₁ : readGitLogWithDiffs env₁ with
    | error e =>
      cases hr₂ : readGitLogWithDiffs env₂ with
      | error e2 =>
        rw [hr₁, hr₂] at hrel
        have he : e = e2 := hrel
        subst he
        simp only [hr₁, hr₂]
      | ok p =>
        rw [hr₁, hr₂] at hrel
        exact absurd hrel not_false
    | ok p₁ =>
      cases hr₂ : readGitLogWithDiffs env₂ with
      | error e =>
        rw [hr₁, hr₂] at hrel
        exact absurd hrel not_false
      | ok p₂ =>
        obtain ⟨rows₁, warns₁⟩ := p₁
        obtain ⟨rows₂, warns₂⟩ := p₂
        rw [hr₁, hr₂] at hrel
        have hlen : rows₁.length = rows₂.length := List.Forall₂.length_eq hrel
        simp only [hr₁, hr₂, hlen, hcwd]
        by_cases h0 : rows₂.length = 0
        · simp only [if_pos h0]
        · simp only [if_neg h0]
          cases hres : resolveFilename env₂.cwd opts.filename with
          | error e => simp only [hres]
          | ok filename =>
            simp only [hres]
            cases hwr : env₂.writeResult with
            | error e => simp only [hw.trans hwr, hwr]
            | ok u2 =>
              cases u2
              simp only [hw.trans hwr, hwr, hlen]

theorem readGit_diff_failure (env : GitEnv) (rows : List CommitRecord) (warns : List String)
    (hok : readGitLogWithDiffs env = .ok (rows, warns)) (i : Nat) (hi : i < rows.length)
    (e : String) (hdiff : env.gitShow ((rows.get ⟨i, hi⟩).hash) = .error e) :
    (rows.get ⟨i, hi⟩).diff = "" ∧ diffWarning ((rows.get ⟨i, hi⟩).hash) e ∈ warns := by
  obtain ⟨hrev, raw, hlog, hcases⟩ := readGit_ok_elim env rows warns hok
  rcases hcases with ⟨hempty, hrows, hwarns⟩ | ⟨hempty, results, hmap, hrows, hwarns⟩
  · subst hrows
    simp at hi
  · have hi' : i < results.length := by
      subst hrows
      simpa using hi
    have hlines : results.length = (jsSplit '\n' (jsTrim raw)).length :=
      mapExcept_ok_length (parseLogLine env) (jsSplit '\n' (jsTrim raw)) results hmap
    have hil : i < (jsSplit '\n' (jsTrim raw)).length := hlines ▸ hi'
    have hpar := mapExcept_ok_get (parseLogLine env) (jsSplit '\n' (jsTrim raw)) results
      hmap i hil hi'
    have hget : rows.get ⟨i, hi⟩ = (results.get ⟨i, hi'⟩).1 := by
      subst hrows
      simp
    rcases hp : results.get ⟨i, hi'⟩ with ⟨r, ws⟩
    rw [hp] at hpar hget
    have helim := parseLogLine_ok_elim env ((jsSplit '\n' (jsTrim raw)).get ⟨i, hil⟩) r ws hpar
    obtain ⟨hfields, hdiffeq, hwseq⟩ := helim
    rw [hget] at hdiff
    have hfd : fetchDiff env r.hash = ("", [diffWarning r.hash e]) := by
      unfold fetchDiff
      rw [hdiff]
    constructor
    · rw [hget, hdiffeq, hfd]
    · rw [hget]
      have hmem : diffWarning r.hash e ∈ ws := by
        rw [hwseq, hfd]
        exact List.mem_singleton.mpr rfl
      have hwsmem : ws ∈ results.map Prod.snd := by
        refine List.mem_map.mpr ⟨(r, ws), ?_, rfl⟩
        rw [← hp]
        exact List.get_mem results i hi'
      rw [hwarns]
      exact List.mem_flatten.mpr ⟨ws, hwsmem, hmem⟩

/-! ### Claim theorems -/

/-- C1 counterexample: on a fully successful concrete export, the single
writer invocation carries no file-level key/value metadata at all — the
claimed `repo_name`/`branch`/`head`/`remote` keys are not passed. -/
theorem c1_counterexample :
    (writeGitLogParquet sampleEnv {}).result =
      .ok { commitCount := 1, filename := "/repo/gitlog.parquet" } ∧
    (writeGitLogParquet sampleEnv {}).writerCalls.map WriterCall.kvMetadata = [none] :=
  ⟨rfl, rfl⟩

/-- C1 (amended): on a successful export the columnar writer is invoked
exactly once, with the resolved output path and the six column arrays, and
with no file-level key/value metadata — no RepoMetadata is ever read or
passed. -/
theorem c1_no_metadata_passed (env : GitEnv) (opts : Opts) (res : ExportResult)
    (hres : (writeGitLogParquet env opts).result = .ok res) :
    ∃ c, (writeGitLogParquet env opts).writerCalls = [c] ∧
      c.kvMetadata = none ∧
      c.filename = res.filename ∧
      c.columnData.map ColumnSource.name =
        ["hash", "authorName", "authorEmail", "date", "subject", "diff"] := by
  obtain ⟨hv, rows, warns, filename, hread, hlen, hresv, hw, hresval, houtcome⟩ :=
    export_ok_elim env opts res hres
  refine ⟨{ filename := filename, columnData := toColumnData env.jsDateMs rows,
            kvMetadata := none }, ?_, rfl, ?_, ?_⟩
  · rw [houtcome]
  · rw [hresval]
  · simp [toColumnData]

/-- C1 witness: the amended theorem applies to the concrete healthy
environment. -/
theorem c1_witness : (writeGitLogParquet sampleEnv {}).writerCalls.length = 1 := by
  obtain ⟨c, hc, hkv, hfn, hnames⟩ :=
    c1_no_metadata_passed sampleEnv {} { commitCount := 1, filename := "/repo/gitlog.parquet" } rfl
  rw [hc]
  rfl

/-- C2 counterexample: a record whose date string is malformed does not make
the export abort with a `DateParseFailure` — the export succeeds and the date
column contains an Invalid Date value (`none`). -/
theorem c2_counterexample :
    (writeGitLogParquet badDateEnv {}).result =
      .ok { commitCount := 1, filename := "/repo/gitlog.parquet" } ∧
    (writeGitLogParquet badDateEnv {}).writerCalls.map
        (fun c => c.columnData.filter (fun col => col.name = "date")) =
      [[{ name := "date", data := .timestamps [none], type := "TIMESTAMP" }]] :=
  ⟨rfl, rfl⟩

/-- C2 (amended): column assembly never raises on a malformed date: the
export's result is entirely independent of date parsing, and `toColumnData`
stores whatever JS `new Date` produced — an Invalid Date for a malformed
string — into the `date` column. -/
theorem c2_invalid_dates_kept (env : GitEnv) (f g : String → Option Int) (opts : Opts)
    (rows : List CommitRecord) :
    (writeGitLogParquet { env with jsDateMs := f } opts).result =
      (writeGitLogParquet { env with jsDateMs := g } opts).result ∧
    (toColumnData f rows).filter (fun col => col.name = "date") =
      [{ name := "date", data := .timestamps (rows.map fun r => f r.date),
         type := "TIMESTAMP" }] := by
  constructor
  · exact export_result_agnostic { env with jsDateMs := f } { env with jsDateMs := g }
      opts rfl rfl rfl rfl
  · rfl

/-- C4: parsing a log line with at least 5 tab-separated fields takes the
first four splits as hash, author name, author email and date, and re-joins
everything from the fifth split on with tabs as the subject; consequently a
tab-containing subject round-trips verbatim when the first four fields are
tab-free. -/
theorem c4_subject_tab_roundtrip :
    (∀ line : String, 5 ≤ (jsSplit '\t' line).length →
      parseFields line =
        .ok ((jsSplit '\t' line).getD 0 "", (jsSplit '\t' line).getD 1 "",
             (jsSplit '\t' line).getD 2 "", (jsSplit '\t' line).getD 3 "",
             jsJoin '\t' ((jsSplit '\t' line).drop 4))) ∧
    (∀ hash an ae dt subj : String,
      '\t' ∉ hash.data → '\t' ∉ an.data → '\t' ∉ ae.data → '\t' ∉ dt.data →
      parseFields (hash ++ "\t" ++ an ++ "\t" ++ ae ++ "\t" ++ dt ++ "\t" ++ subj) =
        .ok (hash, an, ae, dt, subj)) := by
  constructor
  · exact parseFields_of_five_le
  · intro hash an ae dt subj hh han hae hdt
    have hsd : ∀ x y : String, (x ++ y).data = x.data ++ y.data := fun x y => rfl
    have hdata : (hash ++ "\t" ++ an ++ "\t" ++ ae ++ "\t" ++ dt ++ "\t" ++ subj).data =
        hash.data ++ '\t' :: (an.data ++ '\t' :: (ae.data ++ '\t' :: (dt.data ++ '\t' :: subj.data))) := by
      simp only [hsd]
      show (((((((hash.data ++ ['\t']) ++ an.data) ++ ['\t']) ++ ae.data) ++ ['\t']) ++ dt.data) ++ ['\t']) ++ subj.data = _
      simp [List.append_assoc]
    have hsplit : jsSplit '\t' (hash ++ "\t" ++ an ++ "\t" ++ ae ++ "\t" ++ dt ++ "\t" ++ subj) =
        hash :: an :: ae :: dt :: jsSplit '\t' subj := by
      unfold jsSplit
      rw [hdata, splitOnChar_append '\t' hash.data _ hh,
          splitOnChar_append '\t' an.data _ han,
          splitOnChar_append '\t' ae.data _ hae,
          splitOnChar_append '\t' dt.data _ hdt]
      rfl
    obtain ⟨s0, rest, hsubj⟩ := List.exists_cons_of_ne_nil (jsSplit_ne_nil '\t' subj)
    have hline : jsSplit '\t' (hash ++ "\t" ++ an ++ "\t" ++ ae ++ "\t" ++ dt ++ "\t" ++ subj) =
        hash :: an :: ae :: dt :: s0 :: rest := by
      rw [hsplit, hsubj]
    rw [parseFields_cons hash an ae dt s0 rest _ hline, ← hsubj, jsJoin_jsSplit]

/-- C4 witness: the parse theorem applies to concrete lines, including one
whose subject contains a literal tab. -/
theorem c4_witness :
    parseFields "a\tb\tc\td\te\tf" = .ok ("a", "b", "c", "d", "e\tf") ∧
    parseFields "h1\tAlice\ta@x\t2024\tfix: a\tb" =
      .ok ("h1", "Alice", "a@x", "2024", "fix: a\tb") :=
  ⟨c4_subject_tab_roundtrip.1 "a\tb\tc\td\te\tf" (by decide),
   c4_subject_tab_roundtrip.2 "h1" "Alice" "a@x" "2024" "fix: a\tb"
     (by decide) (by decide) (by decide) (by decide)⟩

/-- C8 counterexample: neither `execSync` call site passes a `maxBuffer`, so
the effective stdout ceiling is Node's default 1 MiB — far below the claimed
tens of megabytes. -/
theorem c8_counterexample :
    gitLogExecOptions.effectiveMaxBuffer = 1024 * 1024 ∧
    gitShowExecOptions.effectiveMaxBuffer = 1024 * 1024 ∧
    gitLogExecOptions.effectiveMaxBuffer < 10 * 1024 * 1024 :=
  ⟨rfl, rfl, by decide⟩

/-- C8 (amended): both the log-enumeration and the per-commit diff call sites
leave `maxBuffer` unset, so each invocation is subject to Node's default
1 MiB ceiling (1048576 bytes) rather than a generous ~50 MB one. -/
theorem c8_default_buffer :
    gitLogExecOptions.maxBuffer = none ∧
    gitShowExecOptions.maxBuffer = none ∧
    gitLogExecOptions.effectiveMaxBuffer = nodeDefaultMaxBuffer ∧
    gitShowExecOptions.effectiveMaxBuffer = nodeDefaultMaxBuffer ∧
    nodeDefaultMaxBuffer = 1048576 :=
  ⟨rfl, rfl, rfl, rfl, by decide⟩

/-- C3: a failing per-commit diff retrieval degrades gracefully: the export's
result (status, commit count, path) is unchanged by any change to the diff
command's outcomes; the record list keeps its length and all non-diff fields;
and every record whose diff retrieval failed carries an empty diff plus an
emitted warning. -/
theorem c3_diff_failure_graceful (env : GitEnv) (g : String → Except String String)
    (opts : Opts) (rows : List CommitRecord) (warns : List String)
    (hok : readGitLogWithDiffs env = .ok (rows, warns)) :
    (writeGitLogParquet { env with gitShow := g } opts).result =
        (writeGitLogParquet env opts).result ∧
    (∃ rows' warns', readGitLogWithDiffs { env with gitShow := g } = .ok (rows', warns') ∧
        rows'.length = rows.length ∧ List.Forall₂ SameMeta rows' rows) ∧
    (∀ i (hi : i < rows.length) (e : String),
        env.gitShow ((rows.get ⟨i, hi⟩).hash) = .error e →
          (rows.get ⟨i, hi⟩).diff = "" ∧ diffWarning ((rows.get ⟨i, hi⟩).hash) e ∈ warns) := by
  refine ⟨?_, ?_, ?_⟩
  · exact export_result_agnostic { env with gitShow := g } env opts rfl rfl rfl rfl
  · have hrel := readGit_rel { env with gitShow := g } env rfl rfl
    cases hr : readGitLogWithDiffs { env with gitShow := g } with
    | error e =>
      rw [hr, hok] at hrel
      exact absurd hrel not_false
    | ok p =>
      obtain ⟨rows', warns'⟩ := p
      rw [hr, hok] at hrel
      exact ⟨rows', warns', rfl, List.Forall₂.length_eq hrel, hrel⟩
  · exact readGit_diff_failure env rows warns hok

/-- C3 witness: with the concrete failing-diff environment, replacing the
failing diff command by a succeeding one leaves the export result unchanged. -/
theorem c3_witness :
    (writeGitLogParquet { failingDiffEnv with gitShow := fun _ => .ok "patch" } {}).result =
      (writeGitLogParquet failingDiffEnv {}).result :=
  (c3_diff_failure_graceful failingDiffEnv (fun _ => .ok "patch") {}
    [{ hash := "h1", authorName := "Alice", authorEmail := "alice@x.com",
       date := "2024-01-01T00:00:00+00:00", subject := "init commit", diff := "" }]
    ["Warning: Could not get diff for commit h1: boom"] rfl).1

/-- C5: a successful export returns `commitCount` equal to the number of
enumerated log lines; the records are the parses of those lines in order, and
the six columns are the field-wise transposition of the record list — equal
lengths, no reordering, no filtering. -/
theorem c5_count_and_order (env : GitEnv) (opts : Opts) (res : ExportResult)
    (hres : (writeGitLogParquet env opts).result = .ok res) :
    ∃ raw results rows warns c,
      env.gitLog = .ok raw ∧
      readGitLogWithDiffs env = .ok (rows, warns) ∧
      mapExcept (parseLogLine env) (jsSplit '\n' (jsTrim raw)) = .ok results ∧
      rows = results.map Prod.fst ∧
      res.commitCount = rows.length ∧
      rows.length = (jsSplit '\n' (jsTrim raw)).length ∧
      1 ≤ rows.length ∧
      (∀ i (hi : i < (jsSplit '\n' (jsTrim raw)).length) (hi' : i < results.length),
        parseLogLine env ((jsSplit '\n' (jsTrim raw)).get ⟨i, hi⟩) =
          .ok (results.get ⟨i, hi'⟩)) ∧
      (writeGitLogParquet env opts).writerCalls = [c] ∧
      c.columnData = toColumnData env.jsDateMs rows ∧
      toColumnData env.jsDateMs rows =
        [{ name := "hash", data := .strings (rows.map CommitRecord.hash), type := "STRING" },
         { name := "authorName", data := .strings (rows.map CommitRecord.authorName),
           type := "STRING" },
         { name := "authorEmail", data := .strings (rows.map CommitRecord.authorEmail),
           type := "STRING" },
         { name := "date", data := .timestamps (rows.map fun r => env.jsDateMs r.date),
           type := "TIMESTAMP" },
         { name := "subject", data := .strings (rows.map CommitRecord.subject),
           type := "STRING" },
         { name := "diff", data := .strings (rows.map CommitRecord.diff), type := "STRING" }] ∧
      (∀ col ∈ c.columnData, col.data.length = rows.length) := by
  obtain ⟨hv, rows, warns, filename, hread, hlen, hresv, hw, hresval, houtcome⟩ :=
    export_ok_elim env opts res hres
  obtain ⟨hrev, raw, hlog, hcases⟩ := readGit_ok_elim env rows warns hread
  rcases hcases with ⟨hempty, hrows, hwarns⟩ | ⟨hempty, results, hmap, hrows, hwarns⟩
  · exact absurd (by rw [hrows]; rfl) hlen
  · have hreslen : results.length = (jsSplit '\n' (jsTrim raw)).length :=
      mapExcept_ok_length (parseLogLine env) (jsSplit '\n' (jsTrim raw)) results hmap
    have hrowslen : rows.length = (jsSplit '\n' (jsTrim raw)).length := by
      rw [hrows, List.length_map, hreslen]
    refine ⟨raw, results, rows, warns,
      { filename := filename, columnData := toColumnData env.jsDateMs rows,
        kvMetadata := none },
      hlog, hread, hmap, hrows, by rw [hresval], hrowslen, ?_, ?_, ?_, rfl, rfl, ?_⟩
    · omega
    · intro i hi hi'
      exact mapExcept_ok_get (parseLogLine env) (jsSplit '\n' (jsTrim raw)) results hmap i hi hi'
    · rw [houtcome]
    · intro col hcol
      simp only [toColumnData, List.mem_cons, List.not_mem_nil, or_false] at hcol
      rcases hcol with rfl | rfl | rfl | rfl | rfl | rfl <;>
        simp [ColumnValues.length]

/-- C5 witness: the counting theorem applies to the concrete healthy
environment and yields the six named columns. -/
theorem c5_witness :
    (writeGitLogParquet sampleEnv {}).writerCalls.map
        (fun c => c.columnData.map ColumnSource.name) =
      [["hash", "authorName", "authorEmail", "date", "subject", "diff"]] := by
  obtain ⟨raw, results, rows, warns, c, hlog, hread, hmap, hrows, hcount, hlen, hpos, hord,
    hcalls, hcd, hexplicit, hcols⟩ :=
    c5_count_and_order sampleEnv {} { commitCount := 1, filename := "/repo/gitlog.parquet" } rfl
  rw [hcalls, List.map_singleton, hcd, hexplicit]
  rfl

/-- C6: if any enumerated log line has fewer than 5 tab-separated fields, the
export aborts with a `MalformedLogLine` error naming such a line, and the
writer is never invoked — the line is not silently skipped. -/
theorem c6_malformed_line_aborts (env : GitEnv) (opts : Opts) (raw : String)
    (hv : validateOpts opts = .ok ()) (hrev : env.revParse = .ok ())
    (hlog : env.gitLog = .ok raw) (hne : jsTrim raw ≠ "")
    (hbad : ∃ line ∈ jsSplit '\n' (jsTrim raw), (jsSplit '\t' line).length < 5) :
    (∃ l ∈ jsSplit '\n' (jsTrim raw), (jsSplit '\t' l).length < 5 ∧
        (writeGitLogParquet env opts).result = .error (.malformedLogLine l)) ∧
      (writeGitLogParquet env opts).writerCalls = [] := by
  obtain ⟨l, hl, hshort, herr⟩ := mapExcept_parse_error env (jsSplit '\n' (jsTrim raw)) hbad
  have hread : readGitLogWithDiffs env = .error (.malformedLogLine l) := by
    unfold readGitLogWithDiffs
    simp only [hrev, hlog, if_neg hne, herr]
  exact ⟨⟨l, hl, hshort, by simp only [writeGitLogParquet, hv, hread]⟩,
         by simp only [writeGitLogParquet, hv, hread]⟩

/-- C6 witness: the abort theorem applies to the concrete environment whose
log output has a 3-field line. -/
theorem c6_witness : (writeGitLogParquet badLineEnv {}).writerCalls = [] :=
  (c6_malformed_line_aborts badLineEnv {} "h1\tAlice\tonly three fields"
    rfl rfl rfl (by decide) (by decide)).2

/-- C7: a log enumeration that succeeds with only whitespace output — a
repository with zero commits — makes the export fail with `EmptyRepository`,
and the writer is never invoked. -/
theorem c7_empty_repository (env : GitEnv) (opts : Opts) (raw : String)
    (hv : validateOpts opts = .ok ()) (hrev : env.revParse = .ok ())
    (hlog : env.gitLog = .ok raw) (hempty : jsTrim raw = "") :
    (writeGitLogParquet env opts).result = .error .emptyRepository ∧
      (writeGitLogParquet env opts).writerCalls = [] := by
  have hread : readGitLogWithDiffs env = .ok ([], []) := by
    unfold readGitLogWithDiffs
    simp only [hrev, hlog, if_pos hempty]
  constructor <;> simp [writeGitLogParquet, hv, hread]

/-- C7 witness: the empty-repository theorem applies to the concrete
environment with whitespace-only log output. -/
theorem c7_witness : (writeGitLogParquet noCommitsEnv {}).result = .error .emptyRepository :=
  (c7_empty_repository noCommitsEnv {} "  \n " rfl rfl rfl rfl).1

/-- C9: with well-typed options, an export run outside a repository produces
exactly the `NotARepository` error, no writer call and no warnings, whatever
the other environment components do — nothing besides the repository check is
consulted. -/
theorem c9_not_a_repository (env : GitEnv) (opts : Opts) (e : String)
    (hv : validateOpts opts = .ok ()) (hrev : env.revParse = .error e) :
    writeGitLogParquet env opts =
      { result := .error .notARepository, writerCalls := [], warnings := [] } := by
  have hread : readGitLogWithDiffs env = .error .notARepository := by
    unfold readGitLogWithDiffs
    simp only [hrev]
  simp only [writeGitLogParquet, hv, hread]

/-- C9 witness: the theorem applies to the concrete outside-a-repository
environment. -/
theorem c9_witness :
    (writeGitLogParquet outsideRepoEnv {}).result = .error .notARepository := by
  rw [c9_not_a_repository outsideRepoEnv {} "fatal: not a git repository" rfl rfl]

/-- C10: the empty-string filename passes validation (the type check applies
only to truthy values), is not replaced by the default (`??` replaces only
null/undefined), and resolves to the working directory itself, which is what
the writer receives and the caller gets back. -/
theorem c10_empty_filename (env : GitEnv) (res : ExportResult) :
    validateOpts { filename := .vstr "" } = .ok () ∧
    JsValue.coalesce (.vstr "") defaultFilename = .vstr "" ∧
    resolveFilename env.cwd (.vstr "") = .ok env.cwd ∧
    ((writeGitLogParquet env { filename := .vstr "" }).result = .ok res →
      res.filename = env.cwd ∧
      (writeGitLogParquet env { filename := .vstr "" }).writerCalls.map WriterCall.filename =
        [env.cwd]) := by
  have hresolve : resolveFilename env.cwd (.vstr "") = .ok env.cwd := by
    unfold resolveFilename
    simp [JsValue.coalesce, JsValue.nullish, pathResolve]
  refine ⟨rfl, rfl, hresolve, ?_⟩
  intro h
  obtain ⟨hv, rows, warns, filename, hread, hlen, hres, hw, hresval, houtcome⟩ :=
    export_ok_elim env { filename := .vstr "" } res h
  have hfn : filename = env.cwd := by
    rw [hresolve] at hres
    exact (Except.ok.injEq _ _ ▸ hres : env.cwd = filename).symm
  constructor
  · rw [hresval, hfn]
  · rw [houtcome, hfn]
    rfl

/-- C10 witness: the empty-filename theorem applies to the concrete healthy
environment, whose working directory is returned as the output path. -/
theorem c10_witness :
    (writeGitLogParquet sampleEnv { filename := .vstr "" }).writerCalls.map
        WriterCall.filename = ["/repo"] :=
  ((c10_empty_filename sampleEnv { commitCount := 1, filename := "/repo" }).2.2.2 rfl).2
